import Mathlib

/-!
Shallow embedding of the InferenceBot Discord bot (JavaScript sources:
`src/llmModels.js`, `src/bot.js`, the command-registration script and
`src/config.js`).  Pure logic is translated to Lean functions; the
I/O environment (in-memory cache cell, on-disk cache file, remote API,
Discord channel history, environment variables) is passed in explicitly
as values describing the outcome of each I/O action, and the functions
return both their result and the effects they performed.
-/

namespace InferenceBot

/-! ## Model registry (`src/llmModels.js`) -/

/-- Hardcoded fallback model list from `getAvailableModels` in `llmModels.js`. -/
def defaultModels : List String :=
  ["asi1-mini",
   "google/gemma-3-27b-it",
   "openai/gpt-oss-20b",
   "meta-llama/llama-3.3-70b-instruct",
   "mistralai/mistral-nemo",
   "qwen/qwen3-32b",
   "z-ai/glm-4.5-air"]

/-- Outcome of attempting to read the on-disk cache file `.models-cache.json`:
the file may be absent, unreadable / malformed JSON / missing a `models`
array (all treated alike by the `try`/`catch` in `loadModelsFromCache`),
or parsed with a `models` array. -/
inductive DiskRead where
  | missing : DiskRead
  | malformed : DiskRead
  | parsed (models : List String) : DiskRead
deriving DecidableEq, Repr

/-- Function `loadModelsFromCache` in `llmModels.js`: returns the cached list only when
the file exists, parses, holds an array under `models`, and that array is
non-empty; every failure is a cache miss (`null`). -/
def loadModelsFromCache : DiskRead → Option (List String)
  | .missing => none
  | .malformed => none
  | .parsed ms => if ms.length > 0 then some ms else none

/-- Outcome of the remote `GET {apiBase}/models` call, after the extraction in
`fetchModelsFromAPI` (`data.data || data || []`, mapping `id || name || m`,
dropping falsy entries): either the request threw, or it produced a list. -/
inductive ApiResult where
  | failure : ApiResult
  | success (models : List String) : ApiResult
deriving DecidableEq, Repr

/-- The result of one `getAvailableModels` call together with the effects it
performed: the value written to the in-memory cache `cachedModels`, the list
written to the cache file by `saveModelsToCache` (if any — a write is
best-effort and may itself fail, we record the attempt), and whether the
remote API and the disk cache were consulted. -/
structure FetchOutcome where
  models : List String
  newMem : Option (List String)
  diskWritten : Option (List String)
  apiCalled : Bool
  diskRead : Bool
deriving DecidableEq, Repr

/-- The API-fetch phase of `getAvailableModels` (`llmModels.js` lines 90-118):
on a successful fetch of a non-empty list, cache it in memory and on disk and
return it; otherwise (request error, or empty extracted list) fall back to
`defaultModels`, stored in the in-memory cache only. -/
def fetchPhase (api : ApiResult) (diskRead : Bool) : FetchOutcome :=
  match api with
  | .success ms =>
      if ms.length > 0 then
        { models := ms, newMem := some ms, diskWritten := some ms,
          apiCalled := true, diskRead := diskRead }
      else
        { models := defaultModels, newMem := some defaultModels, diskWritten := none,
          apiCalled := true, diskRead := diskRead }
  | .failure =>
      { models := defaultModels, newMem := some defaultModels, diskWritten := none,
        apiCalled := true, diskRead := diskRead }

/-- Function `getAvailableModels(apiBase, apiKey, forceRefresh)` in `llmModels.js`.
`mem` is the current value of the module-level `cachedModels` (`null` ↦
`none`; note a non-null empty array would be truthy in JS and is returned
as-is, mirrored here by returning `ms` for any `some ms`).  `disk` and `api`
describe what the file system and the remote API would yield if consulted. -/
def getAvailableModels (mem : Option (List String)) (disk : DiskRead)
    (api : ApiResult) (forceRefresh : Bool) : FetchOutcome :=
  match forceRefresh, mem with
  | false, some ms =>
      { models := ms, newMem := some ms, diskWritten := none,
        apiCalled := false, diskRead := false }
  | false, none =>
      match loadModelsFromCache disk with
      | some fileCached =>
          { models := fileCached, newMem := some fileCached, diskWritten := none,
            apiCalled := false, diskRead := true }
      | none => fetchPhase api true
  | true, _ => fetchPhase api false

/-- The `getModelChoices` choice record (`{ name: m, value: m }`). -/
structure Choice where
  name : String
  value : String
deriving DecidableEq, Repr

/-- Function `getModelChoices` in `llmModels.js`: truncate to Discord's 25-choice limit
and map each model id to a `{name, value}` pair. -/
def getModelChoices (models : List String) : List Choice :=
  (models.take 25).map (fun m => { name := m, value := m })

/-- Function `clearCache` in `llmModels.js`: resets the in-memory cache to `null`. -/
def clearCache (_mem : Option (List String)) : Option (List String) :=
  none

/-- The invariant maintained on the in-memory cache `cachedModels`: it is
either `null` or a non-empty list. -/
def MemInv (mem : Option (List String)) : Prop :=
  mem = none ∨ ∃ ms, mem = some ms ∧ ms ≠ []

/-- The remote API yielded no usable models: the request failed or the
extracted list was empty. -/
def ApiNoModels (api : ApiResult) : Prop :=
  api = .failure ∨ api = .success []

/-! ## JS string primitives used by the handlers and the config loader -/

/-- JS `\s`-class whitespace (the characters relevant here). -/
def isJsWs (c : Char) : Bool :=
  c = ' ' || c = '\t' || c = '\n' || c = '\r' || c = '\x0b' || c = '\x0c'

/-- JS `String.prototype.trim()`: strip leading and trailing whitespace. -/
def jsTrim (s : String) : String :=
  String.mk (((s.data.dropWhile isJsWs).reverse.dropWhile isJsWs).reverse)

/-! ## Rate limiter (`src/bot.js`, `checkRateLimit`) -/

/-- The module-level `userLastRequest` map: user id ↦ millisecond timestamp of
the last accepted request (`none` for a user with no entry). -/
def RateMap : Type := String → Option Int

/-- Constant `RATE_LIMIT_SECONDS` in `bot.js`. -/
def RATE_LIMIT_SECONDS : Int := 20

/-- The rejection message template used by `checkRateLimit`. -/
def rateLimitMessage (n : Int) : String :=
  "⏱️ Please wait " ++ toString n ++ " more second" ++
    (if n ≠ 1 then "s" else "") ++ " before using the bot again."

/-- Computes `Math.ceil(x / 1000)` on an integer number of milliseconds `x`. -/
def ceilDivMs (x : Int) : Int :=
  Int.fdiv (x + 999) 1000

/-- Function `checkRateLimit(userId)` in `bot.js`, with the current time `now` passed
explicitly (the source reads `Date.now()`).  Returns the JS function's return
value (`null` ↦ `none`, an error-message string ↦ `some msg`) together with
the updated map.  JS truthiness of `if (lastRequest)` means a stored
timestamp of exactly `0` behaves like a missing entry, mirrored by reading
the entry with default `0`.  The source compares seconds as floats:
`(now - last) / 1000 < 20` is exactly `now - last < 20 * 1000` over the
integers, and `Math.ceil(20 - (now - last) / 1000)` is exactly
`⌈(20 * 1000 - (now - last)) / 1000⌉ = ceilDivMs (20 * 1000 - (now - last))`. -/
def checkRateLimit (now : Int) (m : RateMap) (userId : String) :
    Option String × RateMap :=
  let last := (m userId).getD 0
  if last ≠ 0 ∧ now - last < RATE_LIMIT_SECONDS * 1000 then
    (some (rateLimitMessage (ceilDivMs (RATE_LIMIT_SECONDS * 1000 - (now - last)))), m)
  else
    (none, fun x => if x = userId then some now else m x)

/-! ## Interaction handlers (`src/bot.js`) -/

/-- Function `formatFinalMessage` in `bot.js`. -/
def formatFinalMessage (askedBy question model answer : String) : String :=
  "**Asked by:** " ++ askedBy ++ "\n**Question:** " ++ question ++
    "\n**Model:** " ++ model ++ "\n**Answer:**\n" ++ answer

/-- Outcome of the single `createChatCompletion` HTTP call, passed to the
handlers as the description of what the LLM client would do. -/
inductive LlmResult where
  | ok (answer : String) : LlmResult
  | failure : LlmResult
deriving DecidableEq, Repr

/-- The rejection message of the model-restriction check in the `askllm`
handler. -/
def restrictionMessage : String :=
  "Model restriction is enabled. Non-admins can only use **asi1-mini**. Please select that model or contact an administrator."

/-- What the `askllm` interaction handler ends up doing.  All three delivery
fallbacks of the success path (channel post, DM on a permission error,
follow-up) deliver the same formatted string, summarised as `posted`. -/
inductive AskOutcome where
  | dmRejected : AskOutcome
  | rateLimited (msg : String) : AskOutcome
  | restrictionRejected (msg : String) : AskOutcome
  | posted (final : String) : AskOutcome
  | errored (msg : String) : AskOutcome
deriving DecidableEq, Repr

/-- The `askllm` branch of the `InteractionCreate` handler in `bot.js`:
guild check, rate limit, model-restriction check (restriction enabled ∧ not
an administrator ∧ model other than `asi1-mini`), then the LLM call; on
success the reply is `formatFinalMessage`, on failure a generic apology.
The LLM outcome `llm` is only reached after every check passes. -/
def askllmHandler (inGuild : Bool) (now : Int) (m : RateMap)
    (restrictionEnabled isAdmin : Bool) (userId model question userMention : String)
    (llm : LlmResult) : AskOutcome × RateMap :=
  if !inGuild then (.dmRejected, m)
  else
    match checkRateLimit now m userId with
    | (some msg, m') => (.rateLimited msg, m')
    | (none, m') =>
      if restrictionEnabled && !isAdmin && model != "asi1-mini" then
        (.restrictionRejected restrictionMessage, m')
      else
        match llm with
        | .ok answer =>
            (.posted (formatFinalMessage userMention question model answer), m')
        | .failure =>
            (.errored "Sorry, something went wrong while fetching the answer.", m')

/-! ## Summarize handler (`src/bot.js`) -/

/-- A channel message as the summarize handler sees it: resolved author
display name (`tag || username || id || 'unknown'`), the author-is-bot flag,
raw content, and `createdTimestamp` in milliseconds. -/
structure Msg where
  author : String
  isBot : Bool
  content : String
  createdTimestamp : Int
deriving DecidableEq, Repr

/-- The per-message filter of the fetch loop: skip bot authors unless
`include_bots`, and skip messages whose trimmed content is empty. -/
def keepMsg (includeBots : Bool) (m : Msg) : Bool :=
  (includeBots || !m.isBot) && (jsTrim m.content != "")

/-- The pagination loop of the summarize handler (`bot.js` lines 188-202):
`history` is the channel history in fetch order (most recent first); each
iteration fetches a batch of `min(100, limit - collected.length)` messages
before the previous batch, keeps those passing `keepMsg`, and stops once
`collected` reaches `limit` or the channel is exhausted (empty batch). -/
def fetchLoop (limit : Nat) (ib : Bool) (history collected : List Msg) : List Msg :=
  if h : collected.length < limit then
    if hb : (history.take (min 100 (limit - collected.length))).isEmpty then collected
    else
      fetchLoop limit ib (history.drop (min 100 (limit - collected.length)))
        (collected ++ (history.take (min 100 (limit - collected.length))).filter (keepMsg ib))
  else collected
termination_by history.length
decreasing_by
  simp only [List.isEmpty_iff, List.take_eq_nil_iff] at hb
  push_neg at hb
  have h1 : history ≠ [] := hb.2
  have h2 : 0 < history.length := List.length_pos.mpr h1
  simp only [List.length_drop]
  omega

/-- Core of the regex replacement `.replace(/\s+/g, ' ')`: each maximal run
of whitespace characters collapses to a single space. -/
def collapseRunAux : List Char → List Char
  | [] => []
  | [c] => if isJsWs c then [' '] else [c]
  | c1 :: c2 :: cs =>
    if isJsWs c1 && isJsWs c2 then collapseRunAux (c2 :: cs)
    else (if isJsWs c1 then ' ' else c1) :: collapseRunAux (c2 :: cs)

/-- Models the expression collapsing and trimming message content
(content, then `.replace` of every whitespace run by a space, then trim)
from the summarize
handler. -/
def collapseWs (s : String) : String :=
  jsTrim (String.mk (collapseRunAux s.data))

/-- One transcript line: `` `${author}: ${content}`.slice(0, 2000) `` with
the whitespace-collapsed content. -/
def renderMsg (m : Msg) : String :=
  String.mk ((m.author ++ ": " ++ collapseWs m.content).data.take 2000)

/-- Models `collected.sort((a, b) => a.createdTimestamp - b.createdTimestamp)`:
stable ascending sort by creation timestamp. -/
def sortByTimestamp (l : List Msg) : List Msg :=
  l.mergeSort (fun a b => decide (a.createdTimestamp ≤ b.createdTimestamp))

/-- The transcript (`plain` in the source): fetched-and-filtered messages,
sorted chronologically, rendered, with falsy (empty) lines dropped. -/
def summarizeTranscript (history : List Msg) (limit : Nat) (ib : Bool) : List String :=
  ((sortByTimestamp (fetchLoop limit ib history [])).map renderMsg).filter (fun s => s != "")

/-- The message count actually used by the summarize handler:
`interaction.options.getInteger('limit') || 200` (JS `||` replaces both
`null` and `0` by the default) clamped by
`Math.max(10, Math.min(1000, requestedLimit))`.  The result is at least 10,
so representing it as `Nat` loses nothing. -/
def effectiveLimit (requestedLimit : Option Int) : Nat :=
  (max 10 (min 1000 (match requestedLimit with
    | some v => if v ≠ 0 then v else 200
    | none => 200))).toNat

/-- What the `summarize` interaction handler ends up doing. -/
inductive SummarizeOutcome where
  | notAdmin : SummarizeOutcome
  | rateLimited (msg : String) : SummarizeOutcome
  | noMessages : SummarizeOutcome
  | posted (final : String) : SummarizeOutcome
  | errored (msg : String) : SummarizeOutcome
deriving DecidableEq, Repr

/-- The `summarize` branch of the `InteractionCreate` handler in `bot.js`:
admin gate, rate limit, option defaulting (`getInteger('limit') || 200`,
`getBoolean('include_bots') || false`, `explicitModel || llmDefaultModel` —
JS `||` also replaces `0` and `""`), limit clamping to [10, 1000], transcript
construction; with an empty transcript it replies that there is nothing to
summarize and never reaches the LLM call. -/
def summarizeHandler (isAdmin : Bool) (now : Int) (m : RateMap) (userId : String)
    (requestedLimit : Option Int) (includeBots : Option Bool)
    (explicitModel : Option String) (defaultModel : String)
    (history : List Msg) (userMention : String) (llm : LlmResult) :
    SummarizeOutcome × RateMap :=
  if !isAdmin then (.notAdmin, m)
  else
    match checkRateLimit now m userId with
    | (some msg, m') => (.rateLimited msg, m')
    | (none, m') =>
      let ib : Bool := includeBots.getD false
      let model : String := match explicitModel with
        | some s => if s ≠ "" then s else defaultModel
        | none => defaultModel
      let plain := summarizeTranscript history (effectiveLimit requestedLimit) ib
      if plain.isEmpty then (.noMessages, m')
      else
        match llm with
        | .ok answer =>
            (.posted (formatFinalMessage userMention
              ("Summarize last " ++ toString plain.length ++ " messages") model answer), m')
        | .failure => (.errored "Sorry, I could not summarize this channel.", m')

/-! ## Config loader (`src/config.js`) -/

/-- Function `getEnv(name, fallback)` in `config.js`: a set variable counts only when
its value has non-empty trimmed length; otherwise the fallback is used when
provided, and a missing-variable error is thrown when not. -/
def getEnv (env : String → Option String) (name : String)
    (fallback : Option String) : Except String String :=
  match env name with
  | some value =>
      if (jsTrim value).length > 0 then .ok value
      else
        match fallback with
        | some f => .ok f
        | none => .error ("Missing required environment variable: " ++ name)
  | none =>
      match fallback with
      | some f => .ok f
      | none => .error ("Missing required environment variable: " ++ name)

/-- Pattern `pat` occurs as a contiguous substring of `text`. -/
def ContainsSub (pat text : String) : Prop :=
  ∃ pre post, text.data = pre ++ pat.data ++ post

/-- The validated configuration record built at startup in `config.js`. -/
structure Config where
  discordToken : String
  discordClientId : String
  discordGuildId : String
  llmApiKey : String
  llmApiBase : String
  llmDefaultModel : String
deriving DecidableEq, Repr

/-- The environment variables `config.js` requires with no fallback. -/
def requiredEnvNames : List String :=
  ["DISCORD_BOT_TOKEN", "DISCORD_CLIENT_ID", "DISCORD_GUILD_ID",
   "LLM_API_KEY", "LLM_API_BASE"]

/-- The `config` object construction in `config.js`: each `getEnv` call in
order, failing fast on the first missing required variable; the default
model falls back to `asi1-mini`. -/
def loadConfig (env : String → Option String) : Except String Config := do
  let t ← getEnv env "DISCORD_BOT_TOKEN" none
  let c ← getEnv env "DISCORD_CLIENT_ID" none
  let g ← getEnv env "DISCORD_GUILD_ID" none
  let k ← getEnv env "LLM_API_KEY" none
  let b ← getEnv env "LLM_API_BASE" none
  let d ← getEnv env "LLM_DEFAULT_MODEL" (some "asi1-mini")
  return ⟨t, c, g, k, b, d⟩

/-! ## Helper lemmas -/

/-- A list loaded from the on-disk cache is never empty. -/
theorem loadModelsFromCache_ne_nil {disk : DiskRead} {fc : List String}
    (h : loadModelsFromCache disk = some fc) : fc ≠ [] := by
  cases disk with
  | missing => simp [loadModelsFromCache] at h
  | malformed => simp [loadModelsFromCache] at h
  | parsed ms =>
    by_cases hms : ms.length > 0
    · simp [loadModelsFromCache, hms] at h
      subst h
      exact List.length_pos.mp hms
    · simp [loadModelsFromCache, hms] at h

/-- Lemma: `fetchPhase` reports the `diskRead` flag it was given. -/
theorem fetchPhase_diskRead (api : ApiResult) (dr : Bool) :
    (fetchPhase api dr).diskRead = dr := by
  cases api with
  | failure => rfl
  | success ms =>
    by_cases hms : ms.length > 0 <;> simp [fetchPhase, hms]

/-- The fetch loop on an exhausted channel returns what was collected. -/
theorem fetchLoop_nil (limit : Nat) (ib : Bool) (collected : List Msg) :
    fetchLoop limit ib [] collected = collected := by
  rw [fetchLoop]
  simp

/-- Whatever the fetch loop returns extends `collected` with the filtered
content of some prefix of the channel history. -/
theorem fetchLoop_take (limit : Nat) (ib : Bool) :
    ∀ n history collected, List.length history ≤ n →
      ∃ k, fetchLoop limit ib history collected =
        collected ++ (history.take k).filter (keepMsg ib) := by
  intro n
  induction n with
  | zero =>
    intro history collected hlen
    have h0 : history = [] := List.eq_nil_of_length_eq_zero (by omega)
    subst h0
    exact ⟨0, by rw [fetchLoop_nil]; simp⟩
  | succ n ih =>
    intro history collected hlen
    rw [fetchLoop]
    split
    next h =>
      split
      next hb => exact ⟨0, by simp⟩
      next hb =>
        set r := min 100 (limit - collected.length) with hr
        have hne : history ≠ [] := by
          intro h0
          subst h0
          simp at hb
        have hr1 : 1 ≤ r := by omega
        have hlen' : (history.drop r).length ≤ n := by
          have hpos := List.length_pos.mpr hne
          simp only [List.length_drop]
          omega
        obtain ⟨k', hk'⟩ :=
          ih (history.drop r) (collected ++ (history.take r).filter (keepMsg ib)) hlen'
        refine ⟨r + k', ?_⟩
        rw [hk', List.append_assoc, ← List.filter_append, ← List.take_add]
    next h => exact ⟨0, by simp⟩

/-- When the channel holds at most `limit` surviving messages, the fetch loop
collects all of them. -/
theorem fetchLoop_all (limit : Nat) (ib : Bool) :
    ∀ n history collected, List.length history ≤ n →
      collected.length + (history.filter (keepMsg ib)).length ≤ limit →
      fetchLoop limit ib history collected =
        collected ++ history.filter (keepMsg ib) := by
  intro n
  induction n with
  | zero =>
    intro history collected hlen _
    have h0 : history = [] := List.eq_nil_of_length_eq_zero (by omega)
    subst h0
    rw [fetchLoop_nil]
    simp
  | succ n ih =>
    intro history collected hlen hcap
    rw [fetchLoop]
    split
    next h =>
      split
      next hb =>
        have hr1 : 1 ≤ min 100 (limit - collected.length) := by omega
        have h0 : history = [] := by
          rcases List.take_eq_nil_iff.mp (List.isEmpty_iff.mp hb) with h0 | h0
          · omega
          · exact h0
        subst h0
        simp
      next hb =>
        set r := min 100 (limit - collected.length) with hr
        have hne : history ≠ [] := by
          intro h0
          subst h0
          simp at hb
        have hr1 : 1 ≤ r := by omega
        have hlen' : (history.drop r).length ≤ n := by
          have hpos := List.length_pos.mpr hne
          simp only [List.length_drop]
          omega
        have hsplitf : history.filter (keepMsg ib) =
            (history.take r).filter (keepMsg ib) ++
              (history.drop r).filter (keepMsg ib) := by
          rw [← List.filter_append, List.take_append_drop]
        have hflen := congrArg List.length hsplitf
        simp only [List.length_append] at hflen
        have hcap' : (collected ++ (history.take r).filter (keepMsg ib)).length +
            ((history.drop r).filter (keepMsg ib)).length ≤ limit := by
          simp only [List.length_append]
          omega
        rw [ih (history.drop r) _ hlen' hcap', List.append_assoc, ← hsplitf]
    next h =>
      have hf0 : history.filter (keepMsg ib) = [] :=
        List.length_eq_zero.mp (by omega)
      rw [hf0]
      simp

/-- The chronological sort is a permutation of its input. -/
theorem sortByTimestamp_perm (l : List Msg) : (sortByTimestamp l).Perm l :=
  List.mergeSort_perm l _

/-- The chronological sort is ascending in `createdTimestamp`. -/
theorem sortByTimestamp_sorted (l : List Msg) :
    List.Pairwise (fun a b : Msg => a.createdTimestamp ≤ b.createdTimestamp)
      (sortByTimestamp l) := by
  have h := @List.sorted_mergeSort Msg
    (fun a b => decide (a.createdTimestamp ≤ b.createdTimestamp))
    (fun a b c hab hbc => by
      simp only [decide_eq_true_eq] at *
      omega)
    (fun a b => by
      simp only [Bool.or_eq_true, decide_eq_true_eq]
      omega) l
  exact h.imp (fun hab => by simpa using hab)

/-- A rendered transcript line is never the empty string (it contains at
least the `": "` separator). -/
theorem renderMsg_ne_empty (m : Msg) : renderMsg m ≠ "" := by
  intro h
  have hd : ((m.author ++ ": " ++ collapseWs m.content).data.take 2000) = [] :=
    congrArg String.data h
  rcases List.take_eq_nil_iff.mp hd with h0 | h0
  · exact absurd h0 (by norm_num)
  · have hlen := congrArg List.length h0
    have h2 : (": " : String).data.length = 2 := rfl
    simp only [String.data_append, List.length_append, h2, List.length_nil] at hlen
    omega

/-- The final `.filter(Boolean)` of the transcript drops nothing. -/
theorem summarizeTranscript_eq (history : List Msg) (limit : Nat) (ib : Bool) :
    summarizeTranscript history limit ib =
      (sortByTimestamp (fetchLoop limit ib history [])).map renderMsg := by
  have hall : ∀ s ∈ (sortByTimestamp (fetchLoop limit ib history [])).map renderMsg,
      (s != "") = true := by
    intro s hs
    obtain ⟨m, _, rfl⟩ := List.mem_map.mp hs
    simpa [bne_iff_ne] using renderMsg_ne_empty m
  simpa [summarizeTranscript] using List.filter_eq_self.mpr hall

/-! ## Claim theorems -/

/-- C4: `getModelChoices` returns at most 25 `{name, value}` pairs; an input
of length ≤ 25 yields one pair per element, in order, none dropped or
altered; a longer input loses exactly the entries past position 25, with no
reordering. -/
theorem getModelChoices_spec (models : List String) :
    (getModelChoices models).length ≤ 25 ∧
    (models.length ≤ 25 → getModelChoices models = models.map (fun m => ⟨m, m⟩)) ∧
    getModelChoices models = (models.take 25).map (fun m => ⟨m, m⟩) := by
  refine ⟨?_, ?_, rfl⟩
  · simp [getModelChoices]
  · intro h
    simp [getModelChoices, List.take_of_length_le h]

/-- C4 witness: `getModelChoices_spec` applied to a concrete two-element
list. -/
theorem getModelChoices_spec_witness :
    (getModelChoices ["a", "b"]).length ≤ 25 ∧
    getModelChoices ["a", "b"] = ["a", "b"].map (fun m => ⟨m, m⟩) :=
  ⟨(getModelChoices_spec ["a", "b"]).1,
   (getModelChoices_spec ["a", "b"]).2.1 (by decide)⟩

/-- C5: with `forceRefresh = false` and a valid disk cache `{models:["a","b"]}`,
`getAvailableModels` returns `["a","b"]` with no API call; moreover the
in-memory cache has priority over the disk cache, and the API is only
reached when both caches miss. -/
theorem getAvailableModels_resolution (api : ApiResult) (disk : DiskRead) :
    getAvailableModels none (.parsed ["a", "b"]) api false =
      { models := ["a", "b"], newMem := some ["a", "b"], diskWritten := none,
        apiCalled := false, diskRead := true } ∧
    (∀ ms, getAvailableModels (some ms) disk api false =
      { models := ms, newMem := some ms, diskWritten := none,
        apiCalled := false, diskRead := false }) ∧
    (loadModelsFromCache disk = none →
      getAvailableModels none disk api false = fetchPhase api true) := by
  refine ⟨rfl, fun ms => rfl, fun h => ?_⟩
  simp [getAvailableModels, h]

/-- C5 witness: `getAvailableModels_resolution` at concrete sources. -/
theorem getAvailableModels_resolution_witness :
    getAvailableModels (some ["x"]) .missing .failure false =
      { models := ["x"], newMem := some ["x"], diskWritten := none,
        apiCalled := false, diskRead := false } ∧
    getAvailableModels none .missing .failure false = fetchPhase .failure true :=
  ⟨(getAvailableModels_resolution .failure .missing).2.1 ["x"],
   (getAvailableModels_resolution .failure .missing).2.2 rfl⟩

/-- C6 counterexample: a forced refresh whose API call fails returns the
hardcoded defaults but does NOT write the on-disk cache file, contradicting
the claim that both caches are then overwritten with the resulting list. -/
theorem forceRefresh_no_disk_write_cex :
    (getAvailableModels none .missing .failure true).models = defaultModels ∧
    (getAvailableModels none .missing .failure true).diskWritten = none ∧
    (getAvailableModels none .missing .failure true).diskWritten ≠
      some (getAvailableModels none .missing .failure true).models :=
  ⟨rfl, rfl, fun h => Option.noConfusion h⟩

/-- C6 (amended): a forced refresh skips both caches and calls the remote
API; on a successful non-empty fetch both the in-memory and on-disk caches
are overwritten with the fetched list; if the API fails or returns an empty
list, the hardcoded defaults are returned and stored in the in-memory cache
only — the on-disk cache file is not written. -/
theorem getAvailableModels_forceRefresh (mem : Option (List String))
    (disk : DiskRead) (api : ApiResult) :
    (getAvailableModels mem disk api true).apiCalled = true ∧
    (getAvailableModels mem disk api true).diskRead = false ∧
    (∀ ms, api = .success ms → ms ≠ [] →
      getAvailableModels mem disk api true =
        { models := ms, newMem := some ms, diskWritten := some ms,
          apiCalled := true, diskRead := false }) ∧
    (ApiNoModels api →
      getAvailableModels mem disk api true =
        { models := defaultModels, newMem := some defaultModels,
          diskWritten := none, apiCalled := true, diskRead := false }) := by
  have hfp : getAvailableModels mem disk api true = fetchPhase api false := by
    cases mem <;> rfl
  rw [hfp]
  refine ⟨?_, fetchPhase_diskRead api false, ?_, ?_⟩
  · cases api with
    | failure => rfl
    | success ms => by_cases hms : ms.length > 0 <;> simp [fetchPhase, hms]
  · intro ms hms hne
    subst hms
    simp [fetchPhase, List.length_pos.mpr hne]
  · intro h
    rcases h with rfl | rfl <;> rfl

/-- C6 witness: `getAvailableModels_forceRefresh` at a successful and at a
failing API outcome. -/
theorem getAvailableModels_forceRefresh_witness :
    getAvailableModels none .missing (.success ["a"]) true =
      { models := ["a"], newMem := some ["a"], diskWritten := some ["a"],
        apiCalled := true, diskRead := false } ∧
    getAvailableModels none .missing .failure true =
      { models := defaultModels, newMem := some defaultModels,
        diskWritten := none, apiCalled := true, diskRead := false } :=
  ⟨(getAvailableModels_forceRefresh none .missing (.success ["a"])).2.2.1
      ["a"] rfl (by decide),
   (getAvailableModels_forceRefresh none .missing .failure).2.2.2 (Or.inl rfl)⟩

/-- C1: whenever the in-memory cache satisfies its reachability invariant
(absent or non-empty), `getAvailableModels` returns a non-empty list for
every combination of disk-cache and API outcomes and both `forceRefresh`
values, preserves the invariant, and returns exactly the hardcoded default
list when every I/O path fails (no memory cache, invalid disk cache, API
failing or empty). -/
theorem getAvailableModels_nonempty (mem : Option (List String)) (disk : DiskRead)
    (api : ApiResult) (fr : Bool) (hmem : MemInv mem) :
    (getAvailableModels mem disk api fr).models ≠ [] ∧
    MemInv (getAvailableModels mem disk api fr).newMem ∧
    (mem = none → loadModelsFromCache disk = none → ApiNoModels api →
      (getAvailableModels mem disk api fr).models = defaultModels) := by
  have hdef : defaultModels ≠ [] := by simp [defaultModels]
  have hfetch : ∀ dr : Bool, (fetchPhase api dr).models ≠ [] ∧
      MemInv (fetchPhase api dr).newMem ∧
      (ApiNoModels api → (fetchPhase api dr).models = defaultModels) := by
    intro dr
    cases api with
    | failure => exact ⟨hdef, Or.inr ⟨defaultModels, rfl, hdef⟩, fun _ => rfl⟩
    | success ms =>
      by_cases hms : ms.length > 0
      · have hne : ms ≠ [] := List.length_pos.mp hms
        refine ⟨?_, ?_, ?_⟩
        · simpa [fetchPhase, hms] using hne
        · simp only [fetchPhase, if_pos hms]
          exact Or.inr ⟨ms, rfl, hne⟩
        · intro hno
          rcases hno with h | h <;> simp_all
      · have hnil : ms = [] := List.length_eq_zero.mp (by omega)
        subst hnil
        exact ⟨hdef, Or.inr ⟨defaultModels, rfl, hdef⟩, fun _ => rfl⟩
  cases fr with
  | false =>
    cases mem with
    | some ms =>
      rcases hmem with h | ⟨ms', hms', hne⟩
      · exact absurd h (by simp)
      · have h2 : ms = ms' := by injection hms'
        subst h2
        exact ⟨hne, Or.inr ⟨ms, rfl, hne⟩, fun h => absurd h (by simp)⟩
    | none =>
      cases hl : loadModelsFromCache disk with
      | some fc =>
        have hne := loadModelsFromCache_ne_nil hl
        simp only [getAvailableModels, hl]
        exact ⟨hne, Or.inr ⟨fc, rfl, hne⟩,
          fun _ hnone _ => absurd hnone (by simp)⟩
      | none =>
        simp only [getAvailableModels, hl]
        exact ⟨(hfetch true).1, (hfetch true).2.1, fun _ _ hno => (hfetch true).2.2 hno⟩
  | true =>
    have hr : getAvailableModels mem disk api true = fetchPhase api false := by
      cases mem <;> rfl
    rw [hr]
    exact ⟨(hfetch false).1, (hfetch false).2.1, fun _ _ hno => (hfetch false).2.2 hno⟩

/-- C1 witness: with no cache anywhere and a failing API, the result is the
non-empty default list. -/
theorem getAvailableModels_nonempty_witness :
    (getAvailableModels none .missing .failure false).models ≠ [] ∧
    (getAvailableModels none .missing .failure false).models = defaultModels :=
  ⟨(getAvailableModels_nonempty none .missing .failure false (Or.inl rfl)).1,
   (getAvailableModels_nonempty none .missing .failure false (Or.inl rfl)).2.2
     rfl rfl (Or.inl rfl)⟩

/-- C9: after a forced refresh in which the API fails or returns an empty
list, the hardcoded fallback sits in the in-memory cache (the disk cache is
untouched); every later `forceRefresh = false` call returns the fallback
list while consulting neither the API nor the disk, until `clearCache`
empties the in-memory cache, after which the disk is read again. -/
theorem forcedRefreshFallback_sticky (disk disk' : DiskRead) (api api' : ApiResult)
    (h : ApiNoModels api) :
    (getAvailableModels none disk api true).newMem = some defaultModels ∧
    (getAvailableModels none disk api true).diskWritten = none ∧
    getAvailableModels (getAvailableModels none disk api true).newMem disk' api' false =
      { models := defaultModels, newMem := some defaultModels, diskWritten := none,
        apiCalled := false, diskRead := false } ∧
    (getAvailableModels (clearCache (getAvailableModels none disk api true).newMem)
        disk' api' false).diskRead = true := by
  have h1 : getAvailableModels none disk api true =
      { models := defaultModels, newMem := some defaultModels, diskWritten := none,
        apiCalled := true, diskRead := false } := by
    rcases h with rfl | rfl <;> rfl
  rw [h1]
  refine ⟨rfl, rfl, rfl, ?_⟩
  show (getAvailableModels none disk' api' false).diskRead = true
  cases hl : loadModelsFromCache disk' with
  | some fc => simp [getAvailableModels, hl]
  | none => simp [getAvailableModels, hl, fetchPhase_diskRead]

/-- Bounds for the ceiling division producing the reported wait seconds. -/
theorem ceilDivMs_bounds {x : Int} (h1 : 0 < x) (h2 : x ≤ 20000) :
    0 < ceilDivMs x ∧ ceilDivMs x ≤ 20 := by
  unfold ceilDivMs
  have hd := Int.fdiv_add_fmod (x + 999) 1000
  have h3 : 0 ≤ (x + 999).fmod 1000 := Int.fmod_nonneg (by omega) (by norm_num)
  have h4 : (x + 999).fmod 1000 < 1000 := Int.fmod_lt_of_pos _ (by norm_num)
  omega

/-- Lemma: `checkRateLimit` rejects and leaves the map untouched when a non-zero
stored timestamp lies within the cooldown window. -/
theorem checkRateLimit_rejects (now last : Int) (m : RateMap) (u : String)
    (hm : m u = some last) (h1 : last ≠ 0)
    (h2 : now - last < RATE_LIMIT_SECONDS * 1000) :
    checkRateLimit now m u =
      (some (rateLimitMessage (ceilDivMs (RATE_LIMIT_SECONDS * 1000 - (now - last)))), m) := by
  simp [checkRateLimit, hm, h1, h2]

/-- Lemma: `checkRateLimit` allows the request and records `now` whenever the
cooldown condition fails. -/
theorem checkRateLimit_allows (now : Int) (m : RateMap) (u : String)
    (h : ¬((m u).getD 0 ≠ 0 ∧ now - (m u).getD 0 < RATE_LIMIT_SECONDS * 1000)) :
    checkRateLimit now m u = (none, fun x => if x = u then some now else m x) := by
  simp only [checkRateLimit, if_neg h]

/-- C2: a user with no record is accepted and their timestamp recorded; a
second call within 20 seconds (20000 ms) is rejected with the wait message
for some `N` with `0 < N ≤ 20`, leaving the stored timestamp unchanged; a
second call 20 or more seconds later is accepted and records the new time.
`0 < t` reflects that `Date.now()` is positive (a stored timestamp of `0`
would be falsy in JS). -/
theorem checkRateLimit_spec (t tp : Int) (m₀ : RateMap) (u : String)
    (h0 : m₀ u = none) (ht : 0 < t) (hord : t ≤ tp) :
    (checkRateLimit t m₀ u).1 = none ∧
    (checkRateLimit t m₀ u).2 u = some t ∧
    (tp - t < 20000 →
      ∃ N, 0 < N ∧ N ≤ RATE_LIMIT_SECONDS ∧
        checkRateLimit tp (checkRateLimit t m₀ u).2 u =
          (some (rateLimitMessage N), (checkRateLimit t m₀ u).2)) ∧
    (20000 ≤ tp - t →
      (checkRateLimit tp (checkRateLimit t m₀ u).2 u).1 = none ∧
      (checkRateLimit tp (checkRateLimit t m₀ u).2 u).2 u = some tp) := by
  have hc1 : checkRateLimit t m₀ u = (none, fun x => if x = u then some t else m₀ x) := by
    simp [checkRateLimit, h0]
  have hm1 : (checkRateLimit t m₀ u).2 u = some t := by rw [hc1]; simp
  refine ⟨by rw [hc1], hm1, ?_, ?_⟩
  · intro hd
    have hbnd := ceilDivMs_bounds
      (x := RATE_LIMIT_SECONDS * 1000 - (tp - t))
      (by simp only [RATE_LIMIT_SECONDS]; omega)
      (by simp only [RATE_LIMIT_SECONDS]; omega)
    have hrej := checkRateLimit_rejects tp t ((checkRateLimit t m₀ u).2) u hm1
      (by omega) (by simp only [RATE_LIMIT_SECONDS]; omega)
    exact ⟨ceilDivMs (RATE_LIMIT_SECONDS * 1000 - (tp - t)), hbnd.1, hbnd.2, hrej⟩
  · intro hd
    have hgd : ((checkRateLimit t m₀ u).2 u).getD 0 = t := by rw [hm1]; rfl
    have hall := checkRateLimit_allows tp ((checkRateLimit t m₀ u).2) u
      (by rw [hgd]; simp only [RATE_LIMIT_SECONDS]; omega)
    constructor
    · rw [hall]
    · rw [hall]
      simp

/-- C2 witness: `checkRateLimit_spec` with the first call at `t = 1000` and
the second at `tp = 6000` (5 seconds later, inside the cooldown). -/
theorem checkRateLimit_spec_witness :
    (checkRateLimit 1000 (fun _ => none) "u").1 = none ∧
    (∃ N, 0 < N ∧ N ≤ RATE_LIMIT_SECONDS ∧
      checkRateLimit 6000 (checkRateLimit 1000 (fun _ => none) "u").2 "u" =
        (some (rateLimitMessage N), (checkRateLimit 1000 (fun _ => none) "u").2)) := by
  have h := checkRateLimit_spec 1000 6000 (fun _ => none) "u" rfl (by decide) (by decide)
  exact ⟨h.1, h.2.2.1 (by decide)⟩

/-- C3: with model restriction enabled, a non-admin `askllm` call for a model
other than `asi1-mini` (that passed the rate limit) is rejected with the
restriction message for every possible LLM outcome, i.e. before any LLM
call; an admin is never rejected by this check; with the flag disabled no
caller is rejected by this check. -/
theorem askllm_restriction (now : Int) (m : RateMap)
    (userId model question userMention : String) (isAdmin : Bool)
    (hrl : (checkRateLimit now m userId).1 = none) :
    (model ≠ "asi1-mini" → ∀ llm,
      (askllmHandler true now m true false userId model question userMention llm).1 =
        .restrictionRejected restrictionMessage) ∧
    (∀ llm msg,
      (askllmHandler true now m true true userId model question userMention llm).1 ≠
        .restrictionRejected msg) ∧
    (∀ llm msg,
      (askllmHandler true now m false isAdmin userId model question userMention llm).1 ≠
        .restrictionRejected msg) := by
  rcases hc : checkRateLimit now m userId with ⟨r, m2⟩
  rw [hc] at hrl
  simp only at hrl
  subst hrl
  refine ⟨?_, ?_, ?_⟩
  · intro hne llm
    simp [askllmHandler, hc, hne]
  · intro llm msg
    cases llm <;> simp [askllmHandler, hc]
  · intro llm msg
    cases llm <;> simp [askllmHandler, hc]

/-- C3 witness: `askllm_restriction` for a fresh user requesting `gpt-x`. -/
theorem askllm_restriction_witness :
    (askllmHandler true 1000 (fun _ => none) true false "u" "gpt-x" "q" "<@u>"
        (.ok "a")).1 = .restrictionRejected restrictionMessage ∧
    (askllmHandler true 1000 (fun _ => none) true true "u" "gpt-x" "q" "<@u>"
        (.ok "a")).1 ≠ .restrictionRejected restrictionMessage := by
  have h := askllm_restriction 1000 (fun _ => none) "u" "gpt-x" "q" "<@u>" true (by rfl)
  exact ⟨h.1 (by decide) (.ok "a"), h.2.1 (.ok "a") restrictionMessage⟩

/-- C8: a successful `askllm` invocation with model `m1` and question `2+2?`
posts exactly the formatted reply, which contains the template's model block
`**Model:** m1` and the LLM answer verbatim as substrings. -/
theorem askllm_reply_format (now : Int) (m : RateMap)
    (userId userMention answer : String)
    (hrl : (checkRateLimit now m userId).1 = none) :
    (askllmHandler true now m false false userId "m1" "2+2?" userMention
        (.ok answer)).1 =
      .posted (formatFinalMessage userMention "2+2?" "m1" answer) ∧
    ContainsSub "**Model:** m1" (formatFinalMessage userMention "2+2?" "m1" answer) ∧
    ContainsSub answer (formatFinalMessage userMention "2+2?" "m1" answer) := by
  refine ⟨?_, ?_, ?_⟩
  · rcases hc : checkRateLimit now m userId with ⟨r, m2⟩
    rw [hc] at hrl
    simp only at hrl
    subst hrl
    simp [askllmHandler, hc]
  · refine ⟨("**Asked by:** " ++ userMention ++ "\n**Question:** " ++ "2+2?" ++ "\n").data,
      ("\n**Answer:**\n" ++ answer).data, ?_⟩
    have h1 : ("\n**Model:** " : String).data =
        ("\n" : String).data ++ ("**Model:** " : String).data := rfl
    have h2 : ("**Model:** m1" : String).data =
        ("**Model:** " : String).data ++ ("m1" : String).data := rfl
    simp [formatFinalMessage, String.data_append, h1, h2]
  · refine ⟨("**Asked by:** " ++ userMention ++ "\n**Question:** " ++ "2+2?" ++
      "\n**Model:** " ++ "m1" ++ "\n**Answer:**\n").data, [], ?_⟩
    simp [formatFinalMessage, String.data_append]

/-- C8 witness: `askllm_reply_format` for a fresh user. -/
theorem askllm_reply_format_witness :
    (askllmHandler true 1000 (fun _ => none) false false "u" "m1" "2+2?" "<@u>"
        (.ok "4")).1 = .posted (formatFinalMessage "<@u>" "2+2?" "m1" "4") ∧
    ContainsSub "**Model:** m1" (formatFinalMessage "<@u>" "2+2?" "m1" "4") := by
  have h := askllm_reply_format 1000 (fun _ => none) "u" "<@u>" "4" (by rfl)
  exact ⟨h.1, h.2.1⟩

/-- C9 witness: `forcedRefreshFallback_sticky` at concrete outcomes. -/
theorem forcedRefreshFallback_sticky_witness :
    getAvailableModels (getAvailableModels none .missing .failure true).newMem
        .missing .failure false =
      { models := defaultModels, newMem := some defaultModels, diskWritten := none,
        apiCalled := false, diskRead := false } :=
  (forcedRefreshFallback_sticky .missing .missing .failure .failure (Or.inl rfl)).2.2.1

/-- C7: with `include_bots = false` the collected messages are exactly the
non-bot, non-empty-after-trimming messages of a fetched prefix of the
channel history (all of them when at most `limit` survive); the transcript
is their ascending-by-timestamp sort, each line rendered as
`"{author}: {content}"` whitespace-collapsed and truncated to 2000
characters; and when zero messages survive the handler replies
nothing-to-summarize with the LLM outcome never consulted. -/
theorem summarize_transcript_spec (history : List Msg) (limit : Nat) :
    keepMsg false = (fun m : Msg => !m.isBot && (jsTrim m.content != "")) ∧
    (∃ k, fetchLoop limit false history [] =
      (history.take k).filter (keepMsg false)) ∧
    ((history.filter (keepMsg false)).length ≤ limit →
      (sortByTimestamp (fetchLoop limit false history [])).Perm
        (history.filter (keepMsg false))) ∧
    List.Pairwise (fun a b : Msg => a.createdTimestamp ≤ b.createdTimestamp)
      (sortByTimestamp (fetchLoop limit false history [])) ∧
    summarizeTranscript history limit false =
      (sortByTimestamp (fetchLoop limit false history [])).map renderMsg ∧
    (∀ now m u userMention requestedLimit includeBots explicitModel defaultModel llm,
      (checkRateLimit now m u).1 = none →
      summarizeTranscript history (effectiveLimit requestedLimit)
        ((includeBots : Option Bool).getD false) = [] →
      (summarizeHandler true now m u requestedLimit includeBots explicitModel
        defaultModel history userMention llm).1 = .noMessages) := by
  refine ⟨?_, ?_, ?_, sortByTimestamp_sorted _, summarizeTranscript_eq _ _ _, ?_⟩
  · funext m
    simp [keepMsg]
  · obtain ⟨k, hk⟩ := fetchLoop_take limit false history.length history [] le_rfl
    exact ⟨k, by simpa using hk⟩
  · intro hle
    have hfl := fetchLoop_all limit false history.length history [] le_rfl
      (by simpa using hle)
    rw [hfl, List.nil_append]
    exact sortByTimestamp_perm _
  · intro now m u userMention requestedLimit includeBots explicitModel defaultModel llm
      hrl htr
    rcases hc : checkRateLimit now m u with ⟨r, m2⟩
    rw [hc] at hrl
    simp only at hrl
    subst hrl
    simp [summarizeHandler, hc, htr]

/-- C7 witness: `summarize_transcript_spec` on a concrete three-message
history (one human message, one bot message, one whitespace-only message)
and on an exhausted channel for the nothing-to-summarize reply. -/
theorem summarize_transcript_spec_witness :
    (sortByTimestamp (fetchLoop 200 false
        [⟨"alice", false, "hi", 5⟩, ⟨"bot", true, "spam", 3⟩,
         ⟨"bob", false, " ", 1⟩] [])).Perm
      ([⟨"alice", false, "hi", 5⟩, ⟨"bot", true, "spam", 3⟩,
        ⟨"bob", false, " ", 1⟩].filter (keepMsg false)) ∧
    (summarizeHandler true 1000 (fun _ => none) "u" none none none "dm" []
      "<@u>" (.ok "x")).1 = SummarizeOutcome.noMessages := by
  constructor
  · exact (summarize_transcript_spec
      [⟨"alice", false, "hi", 5⟩, ⟨"bot", true, "spam", 3⟩,
       ⟨"bob", false, " ", 1⟩] 200).2.2.1 (by decide)
  · exact (summarize_transcript_spec [] 200).2.2.2.2.2 1000 (fun _ => none) "u"
      "<@u>" none none none "dm" (.ok "x") rfl
      (by simp [summarizeTranscript, fetchLoop_nil, sortByTimestamp])

/-- If the startup config load succeeds, every required variable passed its
`getEnv` check. -/
theorem loadConfig_ok_required (env : String → Option String) (cfg : Config)
    (h : loadConfig env = .ok cfg) :
    ∀ n ∈ requiredEnvNames, ∃ s, getEnv env n none = Except.ok s := by
  intro n hn
  cases h1 : getEnv env "DISCORD_BOT_TOKEN" none with
  | error e => simp [loadConfig, h1, bind, Except.bind] at h
  | ok t =>
  cases h2 : getEnv env "DISCORD_CLIENT_ID" none with
  | error e => simp [loadConfig, h1, h2, bind, Except.bind] at h
  | ok c =>
  cases h3 : getEnv env "DISCORD_GUILD_ID" none with
  | error e => simp [loadConfig, h1, h2, h3, bind, Except.bind] at h
  | ok g =>
  cases h4 : getEnv env "LLM_API_KEY" none with
  | error e => simp [loadConfig, h1, h2, h3, h4, bind, Except.bind] at h
  | ok k =>
  cases h5 : getEnv env "LLM_API_BASE" none with
  | error e => simp [loadConfig, h1, h2, h3, h4, h5, bind, Except.bind] at h
  | ok b =>
  simp only [requiredEnvNames, List.mem_cons, List.not_mem_nil, or_false] at hn
  rcases hn with rfl | rfl | rfl | rfl | rfl
  · exact ⟨t, h1⟩
  · exact ⟨c, h2⟩
  · exact ⟨g, h3⟩
  · exact ⟨k, h4⟩
  · exact ⟨b, h5⟩

/-- C10: a variable set to a whitespace-only (or empty) string counts as
absent: `getEnv` with no fallback yields the missing-variable error, the
default-model lookup returns the built-in default, and for each of the five
required settings the whole config load fails fast. -/
theorem getEnv_whitespace (env : String → Option String) (name v : String)
    (hset : env name = some v) (hw : jsTrim v = "") :
    getEnv env name none = .error ("Missing required environment variable: " ++ name) ∧
    getEnv env name (some "asi1-mini") = .ok "asi1-mini" ∧
    (name ∈ requiredEnvNames → ∀ cfg, loadConfig env ≠ .ok cfg) := by
  have hlen : ¬((jsTrim v).length > 0) := by rw [hw]; simp
  refine ⟨?_, ?_, ?_⟩
  · simp [getEnv, hset, hlen]
  · simp [getEnv, hset, hlen]
  · intro hmem cfg hok
    obtain ⟨s, hs⟩ := loadConfig_ok_required env cfg hok name hmem
    rw [show getEnv env name none =
        .error ("Missing required environment variable: " ++ name) from
      by simp [getEnv, hset, hlen]] at hs
    exact Except.noConfusion hs

/-- C10 witness: `getEnv_whitespace` with every variable set to three
spaces. -/
theorem getEnv_whitespace_witness :
    getEnv (fun _ => some "   ") "LLM_API_KEY" none =
      .error ("Missing required environment variable: " ++ "LLM_API_KEY") ∧
    getEnv (fun _ => some "   ") "LLM_API_KEY" (some "asi1-mini") = .ok "asi1-mini" ∧
    loadConfig (fun _ => some "   ") ≠
      .ok ⟨"a", "b", "c", "d", "e", "f"⟩ := by
  have h := getEnv_whitespace (fun _ => some "   ") "LLM_API_KEY" "   " rfl (by decide)
  exact ⟨h.1, h.2.1, h.2.2 (by decide) ⟨"a", "b", "c", "d", "e", "f"⟩⟩

end InferenceBot
